import Mathlib

/-!
Verification of the metabolomics identification/grouping/aggregation pipeline
in `src/analysis.py`. Floats are modelled by `ℚ`; pandas DataFrames by lists
of rows (row order = positional index); per-sample intensity columns by
association lists from sample name to value; NaN cells by `Option`.
-/

/-! ## Data model (from `src/analysis.py` and the FeatureEngine interface)

A ConsensusMap row carries `mz`, `RT`, `quality` and one numeric intensity
entry per sample; `sequence` and `charge` are bookkeeping columns dropped by
`annotate_cm_df`, so they are not carried on the row value itself (they appear
only in the caller-visible column list of `CMTable` below). -/

structure CMRow where
  mz : ℚ
  RT : ℚ
  quality : ℚ
  intensities : List (String × ℚ)
deriving DecidableEq

/-- One AccurateMassSearch hit row: `retention_time`, `exp_mass_to_charge`,
`description` (compound name), `opt_global_adduct_ion` (adduct descriptor). -/
structure AMSRow where
  retention_time : ℚ
  exp_mass_to_charge : ℚ
  description : String
  opt_global_adduct_ion : String
deriving DecidableEq

/-- A ConsensusMap row after `annotate_cm_df`: the input row plus the `id`
and `adduct` string columns the function writes. -/
structure AnnRow where
  mz : ℚ
  RT : ℚ
  quality : ℚ
  intensities : List (String × ℚ)
  id : String
  adduct : String
deriving DecidableEq

/-! ## Tolerance matching (lines 28-30 of `analysis.py`)

The code tests `np.isclose(cm_df['mz'], float(ams_mz), atol=1e-05)` and
`np.isclose(cm_df['RT'], float(ams_rt), atol=1e-05)`.  `np.isclose(a, b)`
is `|a - b| <= atol + rtol * |b|`; the call sets `atol` to `1e-5` and leaves
numpy's default `rtol = 1e-5` in force, so the relative term is present. -/

def isclose (a b atol rtol : ℚ) : Bool :=
  decide (|a - b| ≤ atol + rtol * |b|)

/-- The per-(feature, hit) match predicate applied by the annotation loop:
first argument pair is the feature's `(mz, RT)`, second the hit's
`(exp_mass_to_charge, retention_time)`. -/
def matchPred (fmz fRT hmz hRT atol rtol : ℚ) : Bool :=
  isclose fmz hmz atol rtol && isclose fRT hRT atol rtol

/-- Match test exactly as `annotate_cm_df` performs it: both tolerances are
`1e-5`, with numpy's default relative tolerance `1e-5` left in force. -/
def matchesHit (f : CMRow) (h : AMSRow) : Bool :=
  matchPred f.mz f.RT h.exp_mass_to_charge h.retention_time (1/100000) (1/100000)

/-! ## Annotation (`annotate_cm_df`) -/

/-- Python's `s.split(';')` for a one-character separator, on the character
list of the string. -/
def splitOnChar : List Char → Char → List (List Char)
  | [], _ => [[]]
  | c :: cs, sep =>
    match splitOnChar cs sep with
    | [] => [[c]]
    | r :: rs => if c = sep then [] :: r :: rs else (c :: r) :: rs

def pySplit (s : String) (sep : Char) : List String :=
  (splitOnChar s.data sep).map String.mk

/-- The adduct string written per matching hit (line 32-33):
`'[' + ams_adduct.split(';')[0] + ']' + ams_adduct.split(';')[1]`.
(The Python code raises on a descriptor without a separator; this model is
only applied to well-formed two-part descriptors, and pads with `""`.) -/
def adductFormat (s : String) : String :=
  "[" ++ (pySplit s ';').getD 0 "" ++ "]" ++ (pySplit s ';').getD 1 ""

/-- The `id` cell accumulated for one feature: for every hit, in hit-table
order, that matches the feature, `ams_name + ';'` is appended (lines 27-31).
The code iterates hits outermost and features innermost; per feature cell the
result is exactly this fold over the hit list in its original order. -/
def buildId (f : CMRow) (ams : List AMSRow) : String :=
  ams.foldl (fun acc h => if matchesHit f h then acc ++ h.description ++ ";" else acc) ""

/-- The `adduct` cell accumulated for one feature, same loop as `buildId`. -/
def buildAdduct (f : CMRow) (ams : List AMSRow) : String :=
  ams.foldl (fun acc h => if matchesHit f h then acc ++ adductFormat h.opt_global_adduct_ion ++ ";" else acc) ""

/-- Line 35-36: `item[:-1] if ';' in item else ''`. -/
def stripLast (s : String) : String :=
  if s.data.contains ';' then String.mk s.data.dropLast else ""

/-- `annotate_cm_df` (returned value): every feature gets its accumulated,
separator-stripped `id` and `adduct` strings; unless `keep_unidentified`,
rows whose `id` is empty are removed. The `sequence`/`charge` drop is
reflected by `AnnRow` not carrying those columns. -/
def annotate_cm_df (cm : List CMRow) (ams : List AMSRow) (keep_unidentified : Bool) : List AnnRow :=
  let ann := cm.map (fun f =>
    { mz := f.mz, RT := f.RT, quality := f.quality, intensities := f.intensities,
      id := stripLast (buildId f ams), adduct := stripLast (buildAdduct f ams) })
  if keep_unidentified then ann else ann.filter (fun r => !(r.id = ""))

/-! ## Caller-visible mutation footprint of `annotate_cm_df`

The function mutates its first argument before the `drop` on line 38 creates
a new object: lines 23-24 add `id` and `adduct` columns to the caller's
DataFrame, line 26 overwrites its index with `np.arange(0, len(...))`, and
lines 29-36 write only into those two added columns. `CMTable` models the
caller-visible shape of the feature table (index, column names, rows). -/

structure CMTable where
  index : List Nat
  cols : List String
  rows : List CMRow
deriving DecidableEq

/-- State of the CALLER's feature-table object after `annotate_cm_df`
returns: the `id` and `adduct` columns have been added (lines 23-24) and the
index has been replaced by `0..n-1` (line 26); the `drop`/filter steps act on
a fresh object and do not restore the caller's table. -/
def annotate_caller_after (t : CMTable) : CMTable :=
  { index := List.range t.rows.length,
    cols := t.cols ++ ["id", "adduct"],
    rows := t.rows }

/-! ## Quality filter (`filter_df`)

`filter_df(df, q)` returns `df[df['quality'] > 0]`: the threshold parameter
`q` does not occur in the body. -/

def filter_df (df : List CMRow) (q : ℚ) : List CMRow :=
  df.filter (fun r => r.quality > 0)

/-! ## Grouping (`group_metabolites_by_id`) and polarity merge (`combine_neg_pos_ids`)

`group_metabolites_by_id` drops the `mz`, `RT` and `quality` columns, then
runs `df.groupby(['id']).sum()`: per distinct `id`, the per-sample numeric
columns are summed; the string `adduct` column has no sum semantics and is
absent from the grouped output (the code's own comment: "adduct information
will be lost as well (can't sum strings)").  `combine_neg_pos_ids` is
`pd.concat([df_neg, df_pos])` followed by `groupby(df.index).sum()`, where
unmatched rows/columns are absent and a group's sum over values missing in
one input counts them as zero (pandas sums with `skipna`).

Grouped tables are association lists from an id to its per-sample entries;
the fold below performs the group-and-sum. -/

def addEntry : List (String × ℚ) → String → ℚ → List (String × ℚ)
  | [], s, v => [(s, v)]
  | (t, w) :: rest, s, v =>
    if t = s then (t, w + v) :: rest else (t, w) :: addEntry rest s v

def mergeEntries (a b : List (String × ℚ)) : List (String × ℚ) :=
  b.foldl (fun acc e => addEntry acc e.1 e.2) a

def insertGroup : List (String × List (String × ℚ)) → String → List (String × ℚ) →
    List (String × List (String × ℚ))
  | [], i, es => [(i, es)]
  | (k, ws) :: rest, i, es =>
    if k = i then (k, mergeEntries ws es) :: rest else (k, ws) :: insertGroup rest i es

/-- Group-and-sum of keyed rows: pandas `groupby(key).sum()` as a fold. -/
def groupRows (rows : List (String × List (String × ℚ))) : List (String × List (String × ℚ)) :=
  rows.foldl (fun acc r => insertGroup acc r.1 r.2) []

/-- `group_metabolites_by_id`: after dropping `mz`, `RT`, `quality` (and the
unsummable `adduct` strings), rows are grouped by `id` and their per-sample
intensities summed. -/
def group_metabolites_by_id (df : List AnnRow) : List (String × List (String × ℚ)) :=
  groupRows (df.map (fun r => (r.id, r.intensities)))

/-- `combine_neg_pos_ids`: concatenate the two grouped tables, then group by
the id index and sum. -/
def combine_neg_pos_ids (df_neg df_pos : List (String × List (String × ℚ))) :
    List (String × List (String × ℚ)) :=
  groupRows (df_neg ++ df_pos)

/-- Total intensity a row's entry list carries for sample `s`
(a well-formed row has at most one entry per sample; the sum form makes the
grouping lemmas uniform). -/
def entryVal : List (String × ℚ) → String → ℚ
  | [], _ => 0
  | (t, w) :: rest, s => (if t = s then w else 0) + entryVal rest s

/-- Value of the cell `(id, sample)` of a keyed table: total intensity over
all rows carrying that id. -/
def cell : List (String × List (String × ℚ)) → String → String → ℚ
  | [], _, _ => 0
  | (k, es) :: rest, i, s => (if k = i then entryVal es s else 0) + cell rest i s

/-! ## Normalization (`normalize_max`)

`normalize_max` divides the whole table by `df.max().max()`: the maximum of
the per-column maxima.  A table is a list of columns, each a list of values;
`listMax` is pandas `Series.max` (`None`/NaN on an empty series, skipped by
the outer max). -/

def listMax : List ℚ → Option ℚ
  | [] => none
  | x :: xs => some (xs.foldl max x)

def df_max (t : List (List ℚ)) : Option ℚ :=
  listMax (t.filterMap listMax)

def normalize_max (t : List (List ℚ)) : List (List ℚ) :=
  t.map (fun c => c.map (fun x => x / (df_max t).getD 0))

/-! ## Replicate statistics (`get_mean_std_change_df`)

The input table's columns are modelled as an association list from column
name to the column's values (one value per compound row); `n` is the number
of rows.  For each sample name occurring in `sample_pairs` the code selects
the columns whose name contains `name + "_"` (Python substring test), and
builds the row-wise mean and (sample) standard deviation.  The selection of
zero columns yields NaN cells (pandas mean/std over an empty selection),
modelled as `none`. -/

def listStartsWith : List Char → List Char → Bool
  | [], _ => true
  | _ :: _, [] => false
  | p :: ps, c :: cs => p = c && listStartsWith ps cs

def listContainsSub : List Char → List Char → Bool
  | pat, [] => listStartsWith pat []
  | pat, c :: cs => listStartsWith pat (c :: cs) || listContainsSub pat cs

/-- Python's substring containment `pat in hay`. -/
def strContains (hay pat : String) : Bool :=
  listContainsSub pat.data hay.data

/-- Line 183: `[c for c in df.columns if name+'_' in c]`. -/
def replicateCols (cols : List (String × List ℚ)) (name : String) :
    List (String × List ℚ) :=
  cols.filter (fun c => strContains c.1 (name ++ "_"))

/-- Row `i` of the mean column for `name`: pandas `df[replicates].mean(axis=1)`;
NaN (`none`) when the selection is empty. -/
def meanCell (cols : List (String × List ℚ)) (name : String) (i : Nat) : Option ℚ :=
  let sel := replicateCols cols name
  if sel.length = 0 then none
  else some ((sel.map (fun c => c.2.getD i 0)).sum / (sel.length : ℚ))

/-- Row `i` of the squared standard-deviation (variance, `ddof = 1`) column
for `name`.  Pandas `std(axis=1)` is the square root of this value, which is
irrational in general; a cell here is `none` exactly when the pandas std cell
is NaN (selection of fewer than two columns). -/
def varCell (cols : List (String × List ℚ)) (name : String) (i : Nat) : Option ℚ :=
  let sel := replicateCols cols name
  if sel.length ≤ 1 then none
  else
    some (((sel.map (fun c => (c.2.getD i 0 -
      (sel.map (fun d => d.2.getD i 0)).sum / (sel.length : ℚ)) ^ 2)).sum) /
      ((sel.length : ℚ) - 1))

/-- Line 181: `[sample for sample_pair in sample_pairs for sample in sample_pair]`. -/
def namesOf (sample_pairs : List (String × String)) : List String :=
  sample_pairs.foldr (fun p acc => p.1 :: p.2 :: acc) []

/-- The `df_mean` table built by the loop over sample names. -/
def mean_df (cols : List (String × List ℚ)) (sample_pairs : List (String × String))
    (n : Nat) : List (String × List (Option ℚ)) :=
  (namesOf sample_pairs).map (fun name => (name, (List.range n).map (meanCell cols name)))

/-- The `df_std` table (cells hold the square of the pandas std cell;
NaN-ness coincides). -/
def std_df (cols : List (String × List ℚ)) (sample_pairs : List (String × String))
    (n : Nat) : List (String × List (Option ℚ)) :=
  (namesOf sample_pairs).map (fun name => (name, (List.range n).map (varCell cols name)))

/-! ### Fold change

For a pair `(a, b)` the code computes
`df_pair = normalize_max(df_mean[[a, b]] + 1)` and stores
`log2(df_pair[b] / df_pair[a])`.  The cells below are the argument of the
`log2`; NaN cells are `none`, and the pandas max/division NaN rules are the
`omax`/`odiv` rules. -/

def omax : Option ℚ → Option ℚ → Option ℚ
  | none, y => y
  | some x, none => some x
  | some x, some y => some (max x y)

def odiv : Option ℚ → Option ℚ → Option ℚ
  | some x, some y => some (x / y)
  | _, _ => none

/-- Pseudo-counted mean cell: `df_mean[name] + 1`. -/
def pmeanCell (cols : List (String × List ℚ)) (name : String) (i : Nat) : Option ℚ :=
  (meanCell cols name i).map (fun x => x + 1)

/-- Column maximum of the pseudo-counted mean column (pandas skipna max). -/
def colPMax (cols : List (String × List ℚ)) (name : String) (n : Nat) : Option ℚ :=
  ((List.range n).map (pmeanCell cols name)).foldl omax none

/-- `df.max().max()` of the two-column frame `df_mean[[a, b]] + 1`. -/
def pairMax (cols : List (String × List ℚ)) (a b : String) (n : Nat) : Option ℚ :=
  omax (colPMax cols a n) (colPMax cols b n)

/-- Row `i` of the ratio `df_pair[b] / df_pair[a]` whose `log2` the code
stores in `df_change[b + '/' + a]`, for the pair `(a, b)`. -/
def changeRatioCell (cols : List (String × List ℚ)) (a b : String) (n i : Nat) : Option ℚ :=
  odiv (odiv (pmeanCell cols b i) (pairMax cols a b n))
       (odiv (pmeanCell cols a i) (pairMax cols a b n))

/-! ## Lemmas: grouping is a cell-wise sum -/

theorem entryVal_addEntry (es : List (String × ℚ)) (s : String) (v : ℚ) (s' : String) :
    entryVal (addEntry es s v) s' = entryVal es s' + (if s = s' then v else 0) := by
  induction es with
  | nil => simp [addEntry, entryVal]
  | cons e rest ih =>
    obtain ⟨t, w⟩ := e
    by_cases hts : t = s
    · subst hts
      simp only [addEntry, if_pos rfl, entryVal]
      by_cases hs : t = s'
      · simp [hs]; ring
      · simp [hs]
    · simp only [addEntry, if_neg hts, entryVal, ih]
      ring

theorem entryVal_mergeEntries (a b : List (String × ℚ)) (s : String) :
    entryVal (mergeEntries a b) s = entryVal a s + entryVal b s := by
  induction b generalizing a with
  | nil => simp [mergeEntries, entryVal]
  | cons e rest ih =>
    obtain ⟨t, w⟩ := e
    have hstep : mergeEntries a ((t, w) :: rest) = mergeEntries (addEntry a t w) rest := rfl
    rw [hstep, ih, entryVal_addEntry]
    simp [entryVal]
    ring

theorem cell_insertGroup (acc : List (String × List (String × ℚ))) (i : String)
    (es : List (String × ℚ)) (k s : String) :
    cell (insertGroup acc i es) k s
      = cell acc k s + (if i = k then entryVal es s else 0) := by
  induction acc with
  | nil => simp [insertGroup, cell]
  | cons g rest ih =>
    obtain ⟨gk, ws⟩ := g
    by_cases hg : gk = i
    · subst hg
      simp only [insertGroup, if_pos rfl, cell, entryVal_mergeEntries]
      by_cases hk : gk = k
      · simp [hk]; ring
      · simp [hk]
    · simp only [insertGroup, if_neg hg, cell, ih]
      ring

theorem cell_foldl_insertGroup (rows : List (String × List (String × ℚ))) (k s : String) :
    ∀ acc, cell (rows.foldl (fun a r => insertGroup a r.1 r.2) acc) k s
      = cell acc k s + cell rows k s := by
  induction rows with
  | nil => intro acc; simp [cell]
  | cons r rest ih =>
    intro acc
    obtain ⟨i, es⟩ := r
    have hstep : ((i, es) :: rest).foldl (fun a r => insertGroup a r.1 r.2) acc
        = rest.foldl (fun a r => insertGroup a r.1 r.2) (insertGroup acc i es) := rfl
    rw [hstep, ih, cell_insertGroup]
    simp [cell]
    ring

theorem cell_groupRows (rows : List (String × List (String × ℚ))) (k s : String) :
    cell (groupRows rows) k s = cell rows k s := by
  have h := cell_foldl_insertGroup rows k s []
  simpa [groupRows, cell] using h

theorem cell_append (A B : List (String × List (String × ℚ))) (k s : String) :
    cell (A ++ B) k s = cell A k s + cell B k s := by
  induction A with
  | nil => simp [cell]
  | cons r rest ih =>
    obtain ⟨i, es⟩ := r
    have h1 : cell (((i, es) :: rest) ++ B) k s
        = (if i = k then entryVal es s else 0) + cell (rest ++ B) k s := rfl
    rw [h1, ih, cell]
    ring

theorem cell_eq_zero_of_not_mem (B : List (String × List (String × ℚ))) (i s : String)
    (h : ∀ r ∈ B, r.1 ≠ i) : cell B i s = 0 := by
  induction B with
  | nil => rfl
  | cons r rest ih =>
    obtain ⟨k, es⟩ := r
    have hk : k ≠ i := h (k, es) (List.mem_cons_self _ _)
    have hrest : ∀ r ∈ rest, r.1 ≠ i := fun r hr => h r (List.mem_cons_of_mem _ hr)
    simp [cell, hk, ih hrest]

theorem cell_map_rows (df : List AnnRow) (i s : String) :
    cell (df.map (fun r => (r.id, r.intensities))) i s
      = ((df.filter (fun r => r.id = i)).map (fun r => entryVal r.intensities s)).sum := by
  induction df with
  | nil => simp [cell]
  | cons r rest ih =>
    by_cases hr : r.id = i
    · simp [cell, List.filter, hr, ih]
    · simp [cell, List.filter, hr, ih]

/-- C2: grouping drops the per-feature `mz`/`RT`/`quality`/`adduct` data (the
grouped row type carries only the id and the per-sample sums) and the grouped
table's cell for `(id, sample)` is exactly the sum of that sample's
intensities over the input rows whose identification string equals `id`. -/
theorem group_metabolites_sum_characterization (df : List AnnRow) (i s : String) :
    cell (group_metabolites_by_id df) i s
      = ((df.filter (fun r => r.id = i)).map (fun r => entryVal r.intensities s)).sum := by
  rw [group_metabolites_by_id, cell_groupRows, cell_map_rows]

/-- C7: the polarity merge is commutative cell for cell, and a compound id
with no row in one input keeps exactly the other input's cell value (absent
rows contribute zero to the group-and-sum). -/
theorem combine_commutative_cellwise (A B : List (String × List (String × ℚ))) (i s : String) :
    cell (combine_neg_pos_ids A B) i s = cell (combine_neg_pos_ids B A) i s
      ∧ ((∀ r ∈ B, r.1 ≠ i) → cell (combine_neg_pos_ids A B) i s = cell A i s) := by
  constructor
  · rw [combine_neg_pos_ids, combine_neg_pos_ids, cell_groupRows, cell_groupRows,
      cell_append, cell_append]
    ring
  · intro h
    rw [combine_neg_pos_ids, cell_groupRows, cell_append, cell_eq_zero_of_not_mem B i s h,
      add_zero]

/-- Witness for C7 at the spec's 4.4 scenario shape: `Fructose` occurs only
in the first table. -/
theorem combine_commutative_cellwise_witness :
    (∀ r ∈ [(("Glucose" : String), [(("s1" : String), (5 : ℚ))])], r.1 ≠ ("Fructose" : String))
      ∧ cell (combine_neg_pos_ids
            [(("Glucose" : String), [(("s1" : String), (10 : ℚ))]),
             (("Fructose" : String), [(("s1" : String), (3 : ℚ))])]
            [(("Glucose" : String), [(("s1" : String), (5 : ℚ))])]) ("Fructose") ("s1")
        = cell (combine_neg_pos_ids
            [(("Glucose" : String), [(("s1" : String), (5 : ℚ))])]
            [(("Glucose" : String), [(("s1" : String), (10 : ℚ))]),
             (("Fructose" : String), [(("s1" : String), (3 : ℚ))])]) ("Fructose") ("s1")
      ∧ cell (combine_neg_pos_ids
            [(("Glucose" : String), [(("s1" : String), (10 : ℚ))]),
             (("Fructose" : String), [(("s1" : String), (3 : ℚ))])]
            [(("Glucose" : String), [(("s1" : String), (5 : ℚ))])]) ("Fructose") ("s1")
        = cell [(("Glucose" : String), [(("s1" : String), (10 : ℚ))]),
             (("Fructose" : String), [(("s1" : String), (3 : ℚ))])] ("Fructose") ("s1") := by
  refine ⟨by decide, ?_, ?_⟩
  · exact (combine_commutative_cellwise _ _ _ _).1
  · exact (combine_commutative_cellwise
      [(("Glucose" : String), [(("s1" : String), (10 : ℚ))]),
       (("Fructose" : String), [(("s1" : String), (3 : ℚ))])]
      [(("Glucose" : String), [(("s1" : String), (5 : ℚ))])] ("Fructose") ("s1")).2 (by decide)

/-! ## C1, C6: the tolerance test actually applied -/

/-- C1 (amended): the matcher declares a match exactly when
`|mz_f - mz_h| ≤ atol + rtol*|mz_h|` and `|RT_f - rt_h| ≤ atol + rtol*|rt_h|`
with `atol = rtol = 1e-5`: the `np.isclose` call sets only `atol`, so numpy's
default relative tolerance `1e-5`, scaled by the hit's magnitudes, is applied
in addition to the absolute one. -/
theorem annotate_match_characterization (f : CMRow) (h : AMSRow) :
    matchesHit f h = true
      ↔ (|f.mz - h.exp_mass_to_charge| ≤ 1/100000 + (1/100000) * |h.exp_mass_to_charge|
          ∧ |f.RT - h.retention_time| ≤ 1/100000 + (1/100000) * |h.retention_time|) := by
  simp [matchesHit, matchPred, isclose]

/-- C1 counterexample: the feature `(mz, RT) = (100.0005, 200)` and the hit
`(exp_mass_to_charge, retention_time) = (100, 200)` are declared a match by
the code although `|100.0005 - 100| = 5e-4` exceeds the claimed fixed
absolute tolerance `1e-5`. -/
theorem annotate_match_uses_rtol_cx :
    matchesHit ⟨100.0005, 200, 1, []⟩ ⟨200, 100, "X", "M+H;1+"⟩ = true
      ∧ ¬(|(100.0005 : ℚ) - 100| ≤ 1/100000 ∧ |(200 : ℚ) - 200| ≤ 1/100000) := by
  constructor
  · simp only [matchesHit, matchPred, isclose, Bool.and_eq_true, decide_eq_true_eq]
    constructor <;> norm_num [abs_of_nonneg]
  · intro hc
    have := hc.1
    rw [show (100.0005 : ℚ) - 100 = 1/2000 by norm_num] at this
    rw [abs_of_nonneg (by norm_num)] at this
    norm_num at this

/-- C6 (amended): the comparison is symmetric in its absolute part: with the
relative tolerance set to `0` the match predicate gives the same result with
the feature and hit roles swapped; with the code's default `rtol = 1e-5` left
in force it is not symmetric in general. -/
theorem matchPred_symmetric_abs (fmz fRT hmz hRT atol : ℚ) :
    matchPred fmz fRT hmz hRT atol 0 = matchPred hmz hRT fmz fRT atol 0 := by
  simp [matchPred, isclose, abs_sub_comm]

/-- C6 counterexample: with the tolerances the code applies, the feature
`(mz, RT) = (0, 0)` matches the hit `(mz, rt) = (1.00001e-5, 0)` but swapping
the roles gives no match: the relative term scales with the second argument's
magnitude only. -/
theorem matchPred_asymmetric_cx :
    matchPred 0 0 (100001/10000000000) 0 (1/100000) (1/100000) = true
      ∧ matchPred (100001/10000000000) 0 0 0 (1/100000) (1/100000) = false := by
  constructor
  · simp only [matchPred, isclose, Bool.and_eq_true, decide_eq_true_eq]
    constructor <;> norm_num [abs_of_nonneg]
  · simp only [matchPred, isclose, Bool.and_eq_false_iff]
    left
    simp only [decide_eq_false_iff_not, not_le]
    norm_num [abs_of_nonneg]

/-! ## C5: the single-row annotation scenario -/

/-- Evaluation of `annotate_cm_df` on the spec's single-row scenario input:
the scenario feature matches the scenario hit, so the row gets
`id = "Glucose"` and adduct `"[" + "[M+H]+" + "]" + "1+"`. -/
theorem annotate_scenario_eval :
    annotate_cm_df [⟨100.00001, 200.00001, 0.5, [("sample1", 10), ("sample2", 20)]⟩]
        [⟨200.00000, 100.00000, "Glucose", "[M+H]+;1+"⟩] false
      = [⟨100.00001, 200.00001, 0.5, [("sample1", 10), ("sample2", 20)],
          "Glucose", "[[M+H]+]1+"⟩] := by
  have hm : matchesHit ⟨100.00001, 200.00001, 0.5, [("sample1", 10), ("sample2", 20)]⟩
      ⟨200.00000, 100.00000, "Glucose", "[M+H]+;1+"⟩ = true := by
    simp only [matchesHit, matchPred, isclose, Bool.and_eq_true, decide_eq_true_eq]
    constructor <;> norm_num [abs_of_nonneg]
  simp only [annotate_cm_df, List.map, buildId, buildAdduct, List.foldl, hm, if_pos]
  norm_num
  have h1 : stripLast ("Glucose" ++ ";") = "Glucose" := by decide
  have h2 : stripLast (adductFormat "[M+H]+;1+" ++ ";") = "[[M+H]+]1+" := by decide
  rw [h1, h2]
  rfl

/-- C5 (amended): annotating the scenario's single feature row with the
scenario's single hit produces one row with `id = "Glucose"`, unchanged
intensities (and `mz`/`RT`/`quality`), and adduct `"[[M+H]+]1+"`: the code
wraps `split(';')[0]` — here already bracketed, `"[M+H]+"` — in a fresh pair
of brackets before appending the charge part. -/
theorem annotate_scenario_amended :
    annotate_cm_df [⟨100.00001, 200.00001, 0.5, [("sample1", 10), ("sample2", 20)]⟩]
        [⟨200.00000, 100.00000, "Glucose", "[M+H]+;1+"⟩] false
      = [⟨100.00001, 200.00001, 0.5, [("sample1", 10), ("sample2", 20)],
          "Glucose", "[[M+H]+]1+"⟩] :=
  annotate_scenario_eval

/-- C5 counterexample: on the scenario input the adduct cell the code writes
is `"[[M+H]+]1+"`, not the claimed `"[M+H]1+"`. -/
theorem annotate_scenario_adduct_cx :
    (annotate_cm_df [⟨100.00001, 200.00001, 0.5, [("sample1", 10), ("sample2", 20)]⟩]
        [⟨200.00000, 100.00000, "Glucose", "[M+H]+;1+"⟩] false).map (fun r => r.adduct)
      = [("[[M+H]+]1+" : String)]
      ∧ ¬((annotate_cm_df [⟨100.00001, 200.00001, 0.5, [("sample1", 10), ("sample2", 20)]⟩]
        [⟨200.00000, 100.00000, "Glucose", "[M+H]+;1+"⟩] false).map (fun r => r.adduct)
      = [("[M+H]1+" : String)]) := by
  rw [annotate_scenario_eval]
  constructor
  · decide
  · decide

/-! ## C4: the caller's table is mutated -/

/-- C4 (amended): `annotate_cm_df` does NOT leave the caller's feature table
unchanged: the caller's object gains the `id` and `adduct` columns (so its
column list differs whenever it did not already carry an `id` column) and its
row index is overwritten with `0..n-1`; only the value returned to the caller
is a new object (created by the `drop` step). -/
theorem annotate_mutates_caller (t : CMTable) (h : ("id" : String) ∉ t.cols) :
    (annotate_caller_after t).cols ≠ t.cols
      ∧ ("id" : String) ∈ (annotate_caller_after t).cols
      ∧ (annotate_caller_after t).index = List.range t.rows.length := by
  refine ⟨?_, ?_, rfl⟩
  · intro heq
    apply h
    rw [← heq]
    simp [annotate_caller_after]
  · simp [annotate_caller_after]

/-- Witness for C4: a concrete one-row table without an `id` column. -/
theorem annotate_mutates_caller_witness :
    (("id" : String) ∉ (⟨[0], ["mz", "RT", "quality", "sequence", "charge", "sample1"],
        [⟨100, 200, 1, [("sample1", 10)]⟩]⟩ : CMTable).cols)
      ∧ ((annotate_caller_after ⟨[0], ["mz", "RT", "quality", "sequence", "charge", "sample1"],
            [⟨100, 200, 1, [("sample1", 10)]⟩]⟩).cols
          ≠ (⟨[0], ["mz", "RT", "quality", "sequence", "charge", "sample1"],
            [⟨100, 200, 1, [("sample1", 10)]⟩]⟩ : CMTable).cols
        ∧ ("id" : String) ∈ (annotate_caller_after ⟨[0],
            ["mz", "RT", "quality", "sequence", "charge", "sample1"],
            [⟨100, 200, 1, [("sample1", 10)]⟩]⟩).cols
        ∧ (annotate_caller_after ⟨[0], ["mz", "RT", "quality", "sequence", "charge", "sample1"],
            [⟨100, 200, 1, [("sample1", 10)]⟩]⟩).index
          = List.range (⟨[0], ["mz", "RT", "quality", "sequence", "charge", "sample1"],
            [⟨100, 200, 1, [("sample1", 10)]⟩]⟩ : CMTable).rows.length) := by
  refine ⟨by decide, annotate_mutates_caller _ (by decide)⟩

/-- C4 counterexample: on that concrete table the caller's column list after
the call differs from the one before (it gained `id` and `adduct`). -/
theorem annotate_mutates_caller_cx :
    (annotate_caller_after ⟨[0], ["mz", "RT", "quality", "sequence", "charge", "sample1"],
        [⟨100, 200, 1, [("sample1", 10)]⟩]⟩).cols
      ≠ (⟨[0], ["mz", "RT", "quality", "sequence", "charge", "sample1"],
        [⟨100, 200, 1, [("sample1", 10)]⟩]⟩ : CMTable).cols := by
  decide

/-! ## C10: the quality filter ignores its threshold -/

/-- C10: `filter_df` ignores its threshold argument — any two thresholds give
the same result — and it returns exactly the rows whose quality is strictly
positive. -/
theorem filter_df_ignores_threshold (df : List CMRow) (q q' : ℚ) :
    filter_df df q = filter_df df q'
      ∧ ∀ r, r ∈ filter_df df q ↔ (r ∈ df ∧ 0 < r.quality) := by
  constructor
  · rfl
  · intro r
    simp [filter_df, List.mem_filter]

/-! ## C3: an unmatched sample name -/

/-- C3 (amended): when a requested sample name matches zero replicate columns
the code raises nothing: it silently stores an all-NaN mean column and an
all-NaN standard-deviation column for that sample. -/
theorem mean_std_unmatched_nan (cols : List (String × List ℚ))
    (sample_pairs : List (String × String)) (n : Nat) (name : String)
    (hmem : name ∈ namesOf sample_pairs) (hempty : replicateCols cols name = []) :
    (name, List.replicate n (none : Option ℚ)) ∈ mean_df cols sample_pairs n
      ∧ (name, List.replicate n (none : Option ℚ)) ∈ std_df cols sample_pairs n := by
  have hmean : ∀ m : List Nat, m.map (meanCell cols name) = List.replicate m.length none := by
    intro m
    induction m with
    | nil => rfl
    | cons a l ih => simp [meanCell, hempty, ih, List.replicate]
  have hvar : ∀ m : List Nat, m.map (varCell cols name) = List.replicate m.length none := by
    intro m
    induction m with
    | nil => rfl
    | cons a l ih => simp [varCell, hempty, ih, List.replicate]
  have hcolm : (List.range n).map (meanCell cols name) = List.replicate n none := by
    rw [hmean (List.range n), List.length_range]
  have hcolv : (List.range n).map (varCell cols name) = List.replicate n none := by
    rw [hvar (List.range n), List.length_range]
  constructor
  · exact List.mem_map.mpr ⟨name, hmem, by simp only [hcolm]⟩
  · exact List.mem_map.mpr ⟨name, hmem, by simp only [hcolv]⟩

/-- Witness for C3: one replicate column `A_1`, requested pair `(A, B)`;
`B` matches nothing. -/
theorem mean_std_unmatched_nan_witness :
    (("B" : String) ∈ namesOf [(("A" : String), ("B" : String))]
      ∧ replicateCols [(("A_1" : String), [(1 : ℚ), 2])] ("B") = [])
      ∧ ((("B" : String), List.replicate 2 (none : Option ℚ))
            ∈ mean_df [(("A_1" : String), [(1 : ℚ), 2])] [(("A" : String), ("B" : String))] 2
        ∧ (("B" : String), List.replicate 2 (none : Option ℚ))
            ∈ std_df [(("A_1" : String), [(1 : ℚ), 2])] [(("A" : String), ("B" : String))] 2) := by
  have h1 : ("B" : String) ∈ namesOf [(("A" : String), ("B" : String))] := by decide
  have hb : strContains ("A_1") ("B_") = false := by decide
  have h2 : replicateCols [(("A_1" : String), [(1 : ℚ), 2])] ("B") = [] := by
    simp [replicateCols, List.filter, hb]
  exact ⟨⟨h1, h2⟩, mean_std_unmatched_nan _ _ 2 _ h1 h2⟩

/-- C3 counterexample: on that concrete input the operation completes and
returns a mean table whose `B` column is the all-NaN column `[none, none]` —
it is not rejected with an error. -/
theorem mean_std_silent_nan_cx :
    mean_df [(("A_1" : String), [(1 : ℚ), 2])] [(("A" : String), ("B" : String))] 2
      = [(("A" : String), [some (1 : ℚ), some 2]), (("B" : String), [none, none])] := by
  have ha : strContains ("A_1") ("A_") = true := by decide
  have hb : strContains ("A_1") ("B_") = false := by decide
  simp [mean_df, namesOf, meanCell, replicateCols, List.filter, ha, hb,
    List.range_succ]

/-! ## C8: global-max normalization is bounded -/

theorem le_foldl_max_init (xs : List ℚ) (x : ℚ) : x ≤ xs.foldl max x := by
  induction xs generalizing x with
  | nil => exact le_refl x
  | cons a l ih => exact le_trans (le_max_left x a) (ih (max x a))

theorem le_foldl_max_of_mem (xs : List ℚ) (x : ℚ) : ∀ y ∈ xs, y ≤ xs.foldl max x := by
  induction xs generalizing x with
  | nil => intro y hy; cases hy
  | cons a l ih =>
    intro y hy
    cases hy with
    | head => exact le_trans (le_max_right x a) (le_foldl_max_init l (max x a))
    | tail _ h => exact ih (max x a) y h

theorem foldl_max_mem (xs : List ℚ) (x : ℚ) : xs.foldl max x = x ∨ xs.foldl max x ∈ xs := by
  induction xs generalizing x with
  | nil => exact Or.inl rfl
  | cons a l ih =>
    cases ih (max x a) with
    | inl h =>
      cases max_choice x a with
      | inl hx => exact Or.inl (by rw [List.foldl_cons, h, hx])
      | inr ha => exact Or.inr (by rw [List.foldl_cons, h, ha]; exact List.mem_cons_self a l)
    | inr h => exact Or.inr (List.mem_cons_of_mem a h)

theorem listMax_mem (l : List ℚ) (m : ℚ) (h : listMax l = some m) : m ∈ l := by
  cases l with
  | nil => cases h
  | cons x xs =>
    have hm : xs.foldl max x = m := by simpa [listMax] using h
    cases foldl_max_mem xs x with
    | inl h0 => rw [← hm, h0]; exact List.mem_cons_self x xs
    | inr h0 => rw [← hm]; exact List.mem_cons_of_mem x h0

theorem le_listMax (l : List ℚ) (m : ℚ) (h : listMax l = some m) : ∀ y ∈ l, y ≤ m := by
  cases l with
  | nil => intro y hy; cases hy
  | cons x xs =>
    intro y hy
    have hm : xs.foldl max x = m := by simpa [listMax] using h
    cases hy with
    | head => rw [← hm]; exact le_foldl_max_init xs x
    | tail _ h0 => rw [← hm]; exact le_foldl_max_of_mem xs x y h0

theorem listMax_isSome_of_mem (l : List ℚ) (x : ℚ) (hx : x ∈ l) :
    ∃ m, listMax l = some m := by
  cases l with
  | nil => cases hx
  | cons a xs => exact ⟨xs.foldl max a, rfl⟩

theorem df_max_ge (t : List (List ℚ)) (M : ℚ) (h : df_max t = some M) :
    ∀ c ∈ t, ∀ x ∈ c, x ≤ M := by
  intro c hc x hx
  simp only [df_max] at h
  obtain ⟨mc, hmc⟩ := listMax_isSome_of_mem c x hx
  have hmem : mc ∈ t.filterMap listMax := List.mem_filterMap.mpr ⟨c, hc, hmc⟩
  exact le_trans (le_listMax c mc hmc x hx) (le_listMax _ M h mc hmem)

theorem df_max_mem (t : List (List ℚ)) (M : ℚ) (h : df_max t = some M) :
    ∃ c ∈ t, M ∈ c := by
  simp only [df_max] at h
  obtain ⟨c, hc, hlc⟩ := List.mem_filterMap.mp (listMax_mem _ M h)
  exact ⟨c, hc, listMax_mem c M hlc⟩

theorem df_max_isSome (t : List (List ℚ)) (c : List ℚ) (x : ℚ) (hc : c ∈ t) (hx : x ∈ c) :
    ∃ M, df_max t = some M := by
  obtain ⟨mc, hmc⟩ := listMax_isSome_of_mem c x hx
  have hmem : mc ∈ t.filterMap listMax := List.mem_filterMap.mpr ⟨c, hc, hmc⟩
  obtain ⟨m, hm⟩ := listMax_isSome_of_mem _ mc hmem
  exact ⟨m, by simp only [df_max, hm]⟩

/-- C8: after global-max normalization of a table of non-negative values
with at least one positive cell, every cell lies in `[0, 1]` and some cell
equals `1`. -/
theorem normalize_max_bounded (t : List (List ℚ))
    (hnn : ∀ c ∈ t, ∀ x ∈ c, 0 ≤ x) (hpos : ∃ c ∈ t, ∃ x ∈ c, 0 < x) :
    (∀ c ∈ normalize_max t, ∀ y ∈ c, 0 ≤ y ∧ y ≤ 1)
      ∧ ∃ c ∈ normalize_max t, ∃ y ∈ c, y = 1 := by
  obtain ⟨c0, hc0, x0, hx0, hx0pos⟩ := hpos
  obtain ⟨M, hM⟩ := df_max_isSome t c0 x0 hc0 hx0
  have hub := df_max_ge t M hM
  have hMpos : 0 < M := lt_of_lt_of_le hx0pos (hub c0 hc0 x0 hx0)
  have hnorm : normalize_max t = t.map (fun c => c.map (fun x => x / M)) := by
    simp [normalize_max, hM]
  constructor
  · intro c hc y hy
    rw [hnorm] at hc
    obtain ⟨cc, hcc, rfl⟩ := List.mem_map.mp hc
    obtain ⟨x, hxc, rfl⟩ := List.mem_map.mp hy
    exact ⟨div_nonneg (hnn cc hcc x hxc) (le_of_lt hMpos),
      (div_le_one hMpos).mpr (hub cc hcc x hxc)⟩
  · obtain ⟨cM, hcM, hMmem⟩ := df_max_mem t M hM
    refine ⟨cM.map (fun x => x / M), ?_, M / M, ?_, div_self (ne_of_gt hMpos)⟩
    · rw [hnorm]; exact List.mem_map_of_mem _ hcM
    · exact List.mem_map_of_mem _ hMmem

/-- Witness for C8: the table with columns `[0, 2]` and `[1]`. -/
theorem normalize_max_bounded_witness :
    ((∀ c ∈ [[(0 : ℚ), 2], [1]], ∀ x ∈ c, 0 ≤ x)
      ∧ ∃ c ∈ [[(0 : ℚ), 2], [1]], ∃ x ∈ c, 0 < x)
      ∧ ((∀ c ∈ normalize_max [[(0 : ℚ), 2], [1]], ∀ y ∈ c, 0 ≤ y ∧ y ≤ 1)
          ∧ ∃ c ∈ normalize_max [[(0 : ℚ), 2], [1]], ∃ y ∈ c, y = 1) := by
  have hnn : ∀ c ∈ [[(0 : ℚ), 2], [1]], ∀ x ∈ c, 0 ≤ x := by
    simp [List.forall_mem_cons]
  have hpos : ∃ c ∈ [[(0 : ℚ), 2], [1]], ∃ x ∈ c, 0 < x := by
    refine ⟨[(0 : ℚ), 2], by simp, 2, by simp, by norm_num⟩
  exact ⟨⟨hnn, hpos⟩, normalize_max_bounded _ hnn hpos⟩

/-! ## C9: fold change is antisymmetric in the pair order -/

theorem odiv_none_right (p : Option ℚ) : odiv p none = none := by
  cases p <;> rfl

theorem odiv_none_left (p : Option ℚ) : odiv none p = none := by
  cases p <;> rfl

theorem omax_comm (x y : Option ℚ) : omax x y = omax y x := by
  cases x <;> cases y <;> simp [omax, max_comm]

theorem pairMax_comm (cols : List (String × List ℚ)) (a b : String) (n : Nat) :
    pairMax cols b a n = pairMax cols a b n :=
  omax_comm _ _

/-- C9: for the same replicate table, the ratio whose `log2` the code stores
for the pair `(b, a)` is the inverse of the one stored for `(a, b)` (the
joint global max of the two pseudo-counted mean columns is the same for both
orders), so the fold-change value for `(b, a)` is the negation of the value
for `(a, b)` on every row where both are defined. -/
theorem fold_change_antisymmetric (cols : List (String × List ℚ)) (a b : String) (n i : Nat)
    (x y : ℚ) (hx : changeRatioCell cols a b n i = some x)
    (hy : changeRatioCell cols b a n i = some y) :
    Real.logb 2 (y : ℝ) = - Real.logb 2 (x : ℝ) := by
  rw [changeRatioCell] at hx hy
  rw [pairMax_comm] at hy
  cases hM : pairMax cols a b n with
  | none =>
    rw [hM, odiv_none_right, odiv_none_right, odiv_none_left] at hx
    cases hx
  | some m =>
    rw [hM] at hx hy
    cases hpb : pmeanCell cols b i with
    | none =>
      rw [hpb, odiv_none_left, odiv_none_left] at hx
      cases hx
    | some pb =>
      cases hpa : pmeanCell cols a i with
      | none =>
        rw [hpa, odiv_none_left, odiv_none_right] at hx
        cases hx
      | some pa =>
        rw [hpa, hpb] at hx hy
        simp only [odiv, Option.some.injEq] at hx hy
        have hxy : y = x⁻¹ := by
          rw [← hx, ← hy, inv_div]
        rw [hxy]
        push_cast
        rw [Real.logb, Real.logb, Real.log_inv, neg_div]

/-- Witness for C9: two samples `C` (replicates 10, 12) and `T` (replicates
20, 24) on a one-row table; the `(C, T)` ratio is `23/12`, the `(T, C)` ratio
is `12/23`, and the log2 values are negations of each other. -/
theorem fold_change_antisymmetric_witness :
    (changeRatioCell [(("C_1" : String), [(10 : ℚ)]), (("C_2" : String), [(12 : ℚ)]),
        (("T_1" : String), [(20 : ℚ)]), (("T_2" : String), [(24 : ℚ)])] ("C") ("T") 1 0
      = some (23/12)
      ∧ changeRatioCell [(("C_1" : String), [(10 : ℚ)]), (("C_2" : String), [(12 : ℚ)]),
        (("T_1" : String), [(20 : ℚ)]), (("T_2" : String), [(24 : ℚ)])] ("T") ("C") 1 0
      = some (12/23))
      ∧ Real.logb 2 ((12/23 : ℚ) : ℝ) = - Real.logb 2 ((23/12 : ℚ) : ℝ) := by
  have hC1C : strContains ("C_1") ("C_") = true := by decide
  have hC2C : strContains ("C_2") ("C_") = true := by decide
  have hT1C : strContains ("T_1") ("C_") = false := by decide
  have hT2C : strContains ("T_2") ("C_") = false := by decide
  have hC1T : strContains ("C_1") ("T_") = false := by decide
  have hC2T : strContains ("C_2") ("T_") = false := by decide
  have hT1T : strContains ("T_1") ("T_") = true := by decide
  have hT2T : strContains ("T_2") ("T_") = true := by decide
  have hx : changeRatioCell [(("C_1" : String), [(10 : ℚ)]), (("C_2" : String), [(12 : ℚ)]),
      (("T_1" : String), [(20 : ℚ)]), (("T_2" : String), [(24 : ℚ)])] ("C") ("T") 1 0
      = some (23/12) := by
    simp [changeRatioCell, pmeanCell, meanCell, replicateCols, List.filter,
      hC1C, hC2C, hT1C, hT2C, hC1T, hC2T, hT1T, hT2T,
      pairMax, colPMax, omax, odiv, List.range_succ]
    norm_num
  have hy : changeRatioCell [(("C_1" : String), [(10 : ℚ)]), (("C_2" : String), [(12 : ℚ)]),
      (("T_1" : String), [(20 : ℚ)]), (("T_2" : String), [(24 : ℚ)])] ("T") ("C") 1 0
      = some (12/23) := by
    simp [changeRatioCell, pmeanCell, meanCell, replicateCols, List.filter,
      hC1C, hC2C, hT1C, hT2C, hC1T, hC2T, hT1T, hT2T,
      pairMax, colPMax, omax, odiv, List.range_succ]
    norm_num
  exact ⟨⟨hx, hy⟩, fold_change_antisymmetric _ ("C") ("T") 1 0 (23/12) (12/23) hx hy⟩
